import Mathlib

/-!
Verification of the mfp toolkit core against its specification.

Each component of the toolkit that the checked properties touch is given a
shallow embedding: Go functions become Lean functions over explicit data,
stateful handlers become functions from a server state and a request to a
new state and a response, and event-generating loops become functions that
produce the emitted event sequence.  The embeddings follow the Go sources
line by line; parts of the repository whose sources are not available are
modelled from the specification and carry a doc comment saying so.
-/

set_option maxRecDepth 4096

/-! ## argv tokenizer (argv/tokenize.go) -/

namespace Argv

/-- Models Go unicode.IsSpace on the Latin-1 range, which is the range the
tokenizer tests reach: space, tab, newline, vertical tab, form feed,
carriage return, NEL and NBSP. -/
def isGoSpace (c : Char) : Bool :=
  c = ' ' || c = '\t' || c = '\n' || c = '\x0b' || c = '\x0c' || c = '\r' ||
  c = '\x85' || c = '\xa0'

/-- Embeds the octal helper of tokenize.go: numerical value of an octal
digit, minus one if not a digit.  The Go source accepts any decimal digit
here (its upper bound is the character nine). -/
def octalVal (c : Char) : Int :=
  if '0' ≤ c ∧ c ≤ '9' then (c.toNat : Int) - ('0'.toNat : Int) else -1

/-- Embeds the hexadecimal helper of tokenize.go. -/
def hexadecimalVal (c : Char) : Int :=
  if '0' ≤ c ∧ c ≤ '9' then (c.toNat : Int) - ('0'.toNat : Int)
  else if 'a' ≤ c ∧ c ≤ 'f' then (c.toNat : Int) - ('a'.toNat : Int) + 10
  else if 'A' ≤ c ∧ c ≤ 'F' then (c.toNat : Int) - ('A'.toNat : Int) + 10
  else -1

/-- Tokenizer states, mirroring the tkState constants of Tokenize. -/
inductive TkState where
  | tkSpace
  | tkWord
  | tkQuote
  | tkQuoteBs
  | tkHex1
  | tkHex2
  | tkOct1
  | tkOct2
deriving DecidableEq

/-- Running state of the Tokenize loop: current tkState, the token being
accumulated, the numeric escape accumulator and the finished tokens. -/
structure TkSt where
  state : TkState
  token : String
  acc : Nat
  tokens : List String
deriving DecidableEq

/-- Appends the byte-truncated escape accumulator to the token, modelling
Go token += string([]byte bearing byte(acc)). -/
def pushAccByte (t : String) (acc : Nat) : String :=
  t.push (Char.ofNat (acc % 256))

/-- One iteration of the per-rune loop of Tokenize, translated case by
case from tokenize.go. -/
def tokStep (st : TkSt) (c : Char) : TkSt :=
  match st.state with
  | .tkSpace | .tkWord =>
    if c = '"' then
      { st with state := .tkQuote }
    else if isGoSpace c then
      if st.state ≠ .tkSpace then
        { st with tokens := st.tokens ++ [st.token], token := "",
                  state := .tkSpace }
      else st
    else
      { st with state := .tkWord, token := st.token.push c }
  | .tkQuote =>
    if c = '\\' then { st with state := .tkQuoteBs }
    else if c = '"' then { st with state := .tkWord }
    else { st with token := st.token.push c }
  | .tkQuoteBs =>
    match c with
    | 'x' | 'X' => { st with acc := 0, state := .tkHex1 }
    | '0' | '1' | '2' | '3' | '4' | '5' | '6' | '7' =>
      { st with acc := c.toNat - '0'.toNat, state := .tkOct1 }
    | 'a' => { st with token := st.token.push '\x07', state := .tkQuote }
    | 'b' => { st with token := st.token.push '\x08', state := .tkQuote }
    | 'f' => { st with token := st.token.push '\x0c', state := .tkQuote }
    | 'n' => { st with token := st.token.push '\n', state := .tkQuote }
    | 'r' => { st with token := st.token.push '\r', state := .tkQuote }
    | 't' => { st with token := st.token.push '\t', state := .tkQuote }
    | 'v' => { st with token := st.token.push '\x0b', state := .tkQuote }
    | _ => { st with token := st.token.push c, state := .tkQuote }
  | .tkHex1 | .tkHex2 =>
    if 0 ≤ hexadecimalVal c then
      let n := (hexadecimalVal c).toNat
      let acc := st.acc * 16 + n
      if st.state = .tkHex1 then { st with acc := acc, state := .tkHex2 }
      else { st with acc := acc, token := pushAccByte st.token acc,
                     state := .tkQuote }
    else
      let t := pushAccByte st.token st.acc
      if c = '"' then { st with token := t, state := .tkWord }
      else { st with token := t.push c, state := .tkQuote }
  | .tkOct1 | .tkOct2 =>
    if 0 ≤ octalVal c then
      let n := (octalVal c).toNat
      let acc := st.acc * 8 + n
      if st.state = .tkOct1 then { st with acc := acc, state := .tkOct2 }
      else { st with acc := acc, token := pushAccByte st.token acc,
                     state := .tkQuote }
    else
      let t := pushAccByte st.token st.acc
      if c = '"' then { st with token := t, state := .tkWord }
      else { st with token := t.push c, state := .tkQuote }

/-- Embeds argv.Tokenize.  The Go function returns a token slice and an
error; the token slice is nil exactly when the first component here is
none, which happens on the unterminated-string return path. -/
def Tokenize (line : String) : Option (List String) × Option String :=
  let st := line.data.foldl tokStep ⟨.tkSpace, "", 0, []⟩
  match st.state with
  | .tkWord => (some (st.tokens ++ [st.token]), none)
  | .tkSpace => (some st.tokens, none)
  | _ => (none, some "unterminated string")

end Argv

/-! ## argv sub-command selection (argv/parser.go) -/

namespace Argv

/-- Loop body of parser.findSubCommand: an exact name match returns that
single candidate at once; otherwise names for which the typed name is a
suffix (the Go source tests strings.HasSuffix) are collected. -/
def findSubLoop (nm : String) : List String → List String → List String
  | [], inexact => inexact
  | s :: rest, inexact =>
    if nm = s then [s]
    else if nm.data.isSuffixOf s.data then findSubLoop nm rest (inexact ++ [s])
    else findSubLoop nm rest inexact

/-- Embeds parser.findSubCommand over the list of sub-command names. -/
def findSubCommand (subs : List String) (nm : String) : List String :=
  findSubLoop nm subs []

/-- Embeds parser.handleSubCommand: the switch tests the candidate count
zero first, then greater or equal to one; the selection of the unique
candidate sits after the switch. -/
def handleSubCommand (subs : List String) (arg : String) :
    Except String (Option String) :=
  let subcommands := findSubCommand subs arg
  if subcommands.length = 0 then
    .error ("unknown sub-command: \"" ++ arg ++ "\"")
  else if subcommands.length ≥ 1 then
    .error ("ambiguous sub-command: \"" ++ arg ++ "\"")
  else
    .ok subcommands.head?

end Argv

/-! ## auto-TLS listener (transport TLS auto-detect) -/

namespace AutoTLS

/-- Abstract view of an accepted net.Conn: whether it implements the
SyscallConn method, whether that method fails, the bytes a MSG_PEEK read
would deliver, and the errno such a read would report instead. -/
structure Conn where
  hasSyscallConn : Bool
  syscallConnFails : Bool
  peekData : List Nat
  peekErr : Option Nat
deriving DecidableEq

/-- Embeds detectTLSRawConn.  The sixteen-byte buffer starts zeroed; a
successful peek replaces its prefix, a failed peek leaves it untouched,
and the function always reports a nil error. -/
def detectTLSRawConn (data : List Nat) (e : Option Nat) :
    Bool × Option Nat :=
  let buf := if data.length > 0 then data.take 16 else List.replicate 16 0
  match e with
  | none => (buf.head? = some 0x16, none)
  | some _ => (false, none)

/-- Embeds detectTLS: connections lacking the SyscallConn method, or whose
SyscallConn call fails, fall through to the trailing return of false with
a nil error, without touching the connection bytes. -/
def detectTLS (c : Conn) : Bool × Option Nat :=
  if c.hasSyscallConn && !c.syscallConnFails then
    detectTLSRawConn c.peekData c.peekErr
  else
    (false, none)

/-- Where acceptWait finally puts a connection. -/
inductive Destination where
  | plainQueue
  | encryptedQueue
  | droppedConn
deriving DecidableEq

/-- Embeds the classification part of acceptWait: a connection accepted
while the listener is closed is dropped, a detect error drops it, and
otherwise the detect result selects the encrypted or the plain queue. -/
def acceptClassify (closed : Bool) (c : Conn) : Destination :=
  if closed then .droppedConn
  else
    match detectTLS c with
    | (_, some _) => .droppedConn
    | (withTLS, none) =>
      if withTLS then .encryptedQueue else .plainQueue

end AutoTLS

/-! ## Claim theorems for the argv tokenizer and parser -/

/-- Claim C4: the claim states that on an input ending inside a quoted
string, Tokenize returns the unterminated-string error together with the
best-effort prefix tokens.  Evaluating the embedded Tokenize at such an
input shows that the error return path discards the accumulated tokens
and returns the nil slice (none) instead, although the same prefix
tokenizes fine on its own. -/
theorem tokenize_unterminated_returns_nil_tokens :
    Argv.Tokenize "a \"bc" = (none, some "unterminated string")
    ∧ Argv.Tokenize "a bc" = (some ["a", "bc"], none) := by
  decide

/-- Claim C5: the claim states that a first non-option token exactly
matching a sub-command name selects that sub-command.  Evaluating the
embedded parser code on the exact unique match of the package test suite
shows findSubCommand produces the single exact candidate, yet
handleSubCommand rejects any non-empty candidate list as ambiguous. -/
theorem subcommand_exact_match_reported_ambiguous :
    Argv.findSubCommand ["sub-1", "sub-2", "sub-3"] "sub-2" = ["sub-2"]
    ∧ Argv.handleSubCommand ["sub-1", "sub-2", "sub-3"] "sub-2"
      = .error ("ambiguous sub-command: \"sub-2\"") :=
  ⟨by decide, by rfl⟩

/-! ## Claim theorems for the auto-TLS listener -/

/-- Claim C8: a connection whose SyscallConn peek succeeds and delivers
first byte 0x16 is enqueued to the encrypted child listener, and any other
first byte sends it to the plain child listener. -/
theorem autotls_first_byte_classification (c : AutoTLS.Conn) (b : Nat)
    (rest : List Nat)
    (hsc : c.hasSyscallConn = true) (hscf : c.syscallConnFails = false)
    (hpe : c.peekErr = none) (hpd : c.peekData = b :: rest) :
    AutoTLS.acceptClassify false c =
      (if b = 0x16 then .encryptedQueue else .plainQueue) := by
  by_cases hb : b = 22 <;>
    simp [AutoTLS.acceptClassify, AutoTLS.detectTLS, hsc, hscf, hpe, hpd,
          AutoTLS.detectTLSRawConn, hb]

/-- Witness for C8: a TLS-handshake first byte goes to the encrypted
queue and an HTTP first byte to the plain queue. -/
theorem autotls_first_byte_classification_witness :
    AutoTLS.acceptClassify false ⟨true, false, [22, 3, 1], none⟩
      = .encryptedQueue
    ∧ AutoTLS.acceptClassify false ⟨true, false, [71, 69, 84], none⟩
      = .plainQueue := by
  constructor
  · have h := autotls_first_byte_classification ⟨true, false, [22, 3, 1], none⟩
      22 [3, 1] rfl rfl rfl rfl
    simpa using h
  · have h := autotls_first_byte_classification
      ⟨true, false, [71, 69, 84], none⟩ 71 [69, 84] rfl rfl rfl rfl
    simpa using h

/-- Claim C10: a connection whose net.Conn does not implement SyscallConn
is classified plain with no error, without the peeked bytes being
consulted, so it always lands in the plain queue. -/
theorem autotls_without_syscallconn_goes_plain (c : AutoTLS.Conn)
    (h : c.hasSyscallConn = false) :
    AutoTLS.detectTLS c = (false, none)
    ∧ AutoTLS.acceptClassify false c = .plainQueue := by
  simp [AutoTLS.detectTLS, AutoTLS.acceptClassify, h]

/-- Witness for C10: even a connection whose first byte is 0x16 is
delivered to the plain listener when SyscallConn is unavailable. -/
theorem autotls_without_syscallconn_goes_plain_witness :
    AutoTLS.detectTLS ⟨false, false, [22, 3, 1], none⟩ = (false, none)
    ∧ AutoTLS.acceptClassify false ⟨false, false, [22, 3, 1], none⟩
      = .plainQueue :=
  autotls_without_syscallconn_goes_plain ⟨false, false, [22, 3, 1], none⟩ rfl

/-! ## WSD probe scheduler (discovery/wsdd/sched.go) -/

namespace Wsdd

/-- Retransmit series length, from the sched.go constants. -/
def schedRetransmitSeriesLen : Nat := 4

/-- Fast series length, from the sched.go constants. -/
def schedFastSeriesLen : Nat := 2

/-- Events generated by the scheduler; the closed event is a channel
artifact and never emitted by proc itself. -/
inductive SchedEvent where
  | schedNewMessage
  | schedSend
deriving DecidableEq

/-- Events of the inner retransmit loop of proc with n iterations left:
each iteration emits one send event.  The randomized sleeps between
retransmissions separate events in time and are elided, since in browse
mode with the timer never cancelled every sleep returns true. -/
def retransmitSeries : Nat → List SchedEvent
  | 0 => []
  | n + 1 => .schedSend :: retransmitSeries n

/-- Events of one iteration of the fast-series loop of proc: a new-message
event followed by a full retransmit series. -/
def fastSeriesIter : List SchedEvent :=
  .schedNewMessage :: retransmitSeries schedRetransmitSeriesLen

/-- Events of the fast-series loop with n iterations left.  In browse mode
fastCnt increases every iteration and the resolve timeout never fires. -/
def fastSeries : Nat → List SchedEvent
  | 0 => []
  | n + 1 => fastSeriesIter ++ fastSeries n

/-- Events emitted by proc in browse mode during its first r outer-loop
rounds; the outer loop itself never terminates, so every finite prefix of
the stream is a prefix of some procBrowse r. -/
def procBrowse : Nat → List SchedEvent
  | 0 => []
  | r + 1 => fastSeries schedFastSeriesLen ++ procBrowse r

theorem length_procBrowse (r : Nat) : (procBrowse r).length = 10 * r := by
  induction r with
  | zero => rfl
  | succ n ih =>
    have h10 : (fastSeries schedFastSeriesLen).length = 10 := rfl
    simp only [procBrowse, List.length_append, h10, ih]
    omega

theorem getElem?_procBrowse (r k : Nat) (hk : k < 10 * r) :
    (procBrowse r)[k]? =
      some (if k % 5 = 0 then SchedEvent.schedNewMessage
            else SchedEvent.schedSend) := by
  induction r generalizing k with
  | zero => omega
  | succ n ih =>
    have h10 : (fastSeries schedFastSeriesLen).length = 10 := rfl
    rw [procBrowse]
    by_cases hsmall : k < 10
    · rw [List.getElem?_append, h10, if_pos hsmall]
      interval_cases k <;> rfl
    · rw [List.getElem?_append, h10, if_neg hsmall]
      have hmod : (k - 10) % 5 = k % 5 := by omega
      rw [ih (k - 10) (by omega), hmod]

theorem mem_bound_procBrowse (r k : Nat) (e : SchedEvent)
    (h : (procBrowse r)[k]? = some e) : k < 10 * r := by
  have := List.getElem?_eq_some.mp h
  obtain ⟨hlt, -⟩ := this
  simpa [length_procBrowse] using hlt

end Wsdd

/-- Claim C7: in browse mode, between two consecutive new-message events
the scheduler emits exactly schedRetransmitSeriesLen send events, and
those sends immediately follow the first of the two new-message events. -/
theorem sched_browse_pacing (rounds i j : Nat)
    (hi : (Wsdd.procBrowse rounds)[i]? = some .schedNewMessage)
    (hj : (Wsdd.procBrowse rounds)[j]? = some .schedNewMessage)
    (hij : i < j)
    (hbetween : ∀ k, k < j → i < k →
      (Wsdd.procBrowse rounds)[k]? ≠ some Wsdd.SchedEvent.schedNewMessage) :
    j = i + Wsdd.schedRetransmitSeriesLen + 1
    ∧ ∀ k, k < j → i < k →
      (Wsdd.procBrowse rounds)[k]? = some Wsdd.SchedEvent.schedSend := by
  have hilt : i < 10 * rounds := Wsdd.mem_bound_procBrowse rounds i _ hi
  have hjlt : j < 10 * rounds := Wsdd.mem_bound_procBrowse rounds j _ hj
  have hi5 : i % 5 = 0 := by
    by_contra hne
    rw [Wsdd.getElem?_procBrowse rounds i hilt] at hi
    simp [hne] at hi
  have hj5 : j % 5 = 0 := by
    by_contra hne
    rw [Wsdd.getElem?_procBrowse rounds j hjlt] at hj
    simp [hne] at hj
  have hjeq : j = i + 5 := by
    by_contra hne
    have hgt : j > i + 5 := by omega
    have hmid := hbetween (i + 5) (by omega) (by omega)
    rw [Wsdd.getElem?_procBrowse rounds (i + 5) (by omega)] at hmid
    have : (i + 5) % 5 = 0 := by omega
    simp [this] at hmid
  constructor
  · simpa [Wsdd.schedRetransmitSeriesLen] using hjeq
  · intro k hkj hik
    have hk5 : k % 5 ≠ 0 := by omega
    rw [Wsdd.getElem?_procBrowse rounds k (by omega)]
    simp [hk5]

/-- Witness for C7: in the first browse round, the new-message events sit
at positions zero and five, and positions one to four are sends. -/
theorem sched_browse_pacing_witness :
    5 = 0 + Wsdd.schedRetransmitSeriesLen + 1
    ∧ ∀ k, k < 5 → 0 < k →
      (Wsdd.procBrowse 1)[k]? = some Wsdd.SchedEvent.schedSend :=
  sched_browse_pacing 1 0 5 (by decide) (by decide) (by decide) (by decide)

/-! ## Abstract scanner request validator (abstract/scanrequest.go) -/

namespace Abstract

/-- Modelled from the spec: the enum types of the abstract package are Go
integer enums whose zero value means unset, with a max sentinel bounding
the valid range; the sources of the enum declarations are not part of the
tree, only their use in Validate is.  Input source values. -/
def InputUnset : Int := 0

def InputPlaten : Int := 1

def InputADF : Int := 2

def inputMax : Int := 3

def ADFModeUnset : Int := 0

def ADFModeSimplex : Int := 1

def ADFModeDuplex : Int := 2

def adfModeMax : Int := 3

def ColorModeUnset : Int := 0

def ColorModeBinary : Int := 1

def ColorModeMono : Int := 2

def ColorModeColor : Int := 3

def colorModeMax : Int := 4

def DepthUnset : Int := 0

def depthMax : Int := 3

def BinaryRenderingUnset : Int := 0

def binaryRenderingMax : Int := 3

def CCDChannelUnset : Int := 0

def ccdChannelMax : Int := 6

/-- Modelled from the spec: one settings profile of an input capability;
the generic.Bitset sets become lists whose membership plays the role of
Bitset.Contains. -/
structure SettingsProfile where
  colorModes : List Int
  depths : List Int
  binaryRenderings : List Int
  ccdChannels : List Int
deriving DecidableEq

/-- Modelled from the spec: per-input capabilities gathered by Validate. -/
structure InputCapabilities where
  intents : List Int
  profiles : List SettingsProfile
deriving DecidableEq

/-- Modelled from the spec: an allowed range for an image processing
parameter, with Min, Max and an optional Step. -/
structure RangeCap where
  rmin : Int
  rmax : Int
  step : Option Int
deriving DecidableEq

/-- Modelled from the spec: the capability descriptor fields that Validate
reads; absent input sources and absent ranges are nil pointers in Go. -/
structure ScannerCapabilities where
  platen : Option InputCapabilities
  adfSimplex : Option InputCapabilities
  adfDuplex : Option InputCapabilities
  thresholdRange : Option RangeCap
  brightnessRange : Option RangeCap
  contrastRange : Option RangeCap
  gammaRange : Option RangeCap
  highlightRange : Option RangeCap
  noiseRemovalRange : Option RangeCap
  shadowRange : Option RangeCap
  sharpenRange : Option RangeCap
  compressionRange : Option RangeCap
deriving DecidableEq

/-- The fields of abstract.ScannerRequest that Validate reads; the
remaining fields (DocumentFormat, Region, Resolution, Intent) are never
consulted by Validate and are omitted. -/
structure ScannerRequest where
  input : Int
  adfMode : Int
  colorMode : Int
  depth : Int
  binaryRendering : Int
  ccdChannel : Int
  brightness : Option Int
  contrast : Option Int
  gamma : Option Int
  highlight : Option Int
  noiseRemoval : Option Int
  shadow : Option Int
  sharpen : Option Int
  threshold : Option Int
  compression : Option Int
deriving DecidableEq

/-- Error kinds of the validator. -/
inductive ErrKind where
  | errInvalidParam
  | errUnsupportedParam
deriving DecidableEq

/-- The ErrParam error value carrying kind, field name and value. -/
structure ErrParam where
  err : ErrKind
  name : String
  value : Int
deriving DecidableEq

/-- Go early-return composition: the first error wins. -/
def firstErr : Option ErrParam → Option ErrParam → Option ErrParam
  | some e, _ => some e
  | none, b => b

/-- Input capabilities present in the scanner, in the order Validate
iterates them. -/
def presentInputCaps (caps : ScannerCapabilities) : List InputCapabilities :=
  [caps.platen, caps.adfSimplex, caps.adfDuplex].filterMap id

/-- The inputs bitset gathered at the top of Validate. -/
def supInputs (caps : ScannerCapabilities) : List Int :=
  (if caps.platen.isSome then [InputPlaten] else []) ++
  (if caps.adfSimplex.isSome || caps.adfDuplex.isSome then [InputADF] else [])

/-- The adfmodes bitset gathered at the top of Validate. -/
def supADFModes (caps : ScannerCapabilities) : List Int :=
  (if caps.adfSimplex.isSome then [ADFModeSimplex] else []) ++
  (if caps.adfDuplex.isSome then [ADFModeDuplex] else [])

/-- The colorModes bitset: union over the profiles of the present input
capabilities. -/
def supColorModes (caps : ScannerCapabilities) : List Int :=
  (presentInputCaps caps).flatMap (fun ic => ic.profiles.flatMap (·.colorModes))

/-- The depths bitset. -/
def supDepths (caps : ScannerCapabilities) : List Int :=
  (presentInputCaps caps).flatMap (fun ic => ic.profiles.flatMap (·.depths))

/-- The binrend bitset. -/
def supBinaryRenderings (caps : ScannerCapabilities) : List Int :=
  (presentInputCaps caps).flatMap
    (fun ic => ic.profiles.flatMap (·.binaryRenderings))

/-- The ccdChannels bitset. -/
def supCCDChannels (caps : ScannerCapabilities) : List Int :=
  (presentInputCaps caps).flatMap (fun ic => ic.profiles.flatMap (·.ccdChannels))

/-- The Input switch of Validate. -/
def checkInput (req : ScannerRequest) (caps : ScannerCapabilities) :
    Option ErrParam :=
  if req.input = InputUnset then none
  else if req.input < 0 ∨ req.input ≥ inputMax then
    some ⟨.errInvalidParam, "Input", req.input⟩
  else if !((supInputs caps).contains req.input) then
    some ⟨.errUnsupportedParam, "Input", req.input⟩
  else none

/-- The ADFMode switch of Validate. -/
def checkADFMode (req : ScannerRequest) (caps : ScannerCapabilities) :
    Option ErrParam :=
  if req.input ≠ InputADF then none
  else if req.adfMode = ADFModeUnset then none
  else if req.adfMode < 0 ∨ req.adfMode ≥ adfModeMax then
    some ⟨.errInvalidParam, "ADFMode", req.adfMode⟩
  else if !((supADFModes caps).contains req.adfMode) then
    some ⟨.errUnsupportedParam, "ADFMode", req.adfMode⟩
  else none

/-- The ColorMode switch of Validate; the field name carries the stray
comma present in the Go string literals. -/
def checkColorMode (req : ScannerRequest) (caps : ScannerCapabilities) :
    Option ErrParam :=
  if req.colorMode = ColorModeUnset then none
  else if req.colorMode < 0 ∨ req.colorMode ≥ colorModeMax then
    some ⟨.errInvalidParam, "ColorMode,", req.colorMode⟩
  else if !((supColorModes caps).contains req.colorMode) then
    some ⟨.errUnsupportedParam, "ColorMode,", req.colorMode⟩
  else none

/-- Modelled from the spec: Range.validate of the abstract package, whose
source is not in the tree.  A set value against an absent range is
unsupported; against a present range it must lie between Min and Max and
on the Step grid when a step is given; an unset value always passes. -/
def rangeValidate (r : Option RangeCap) (nm : String) (v : Option Int) :
    Option ErrParam :=
  match v with
  | none => none
  | some x =>
    match r with
    | none => some ⟨.errUnsupportedParam, nm, x⟩
    | some rc =>
      if rc.rmin ≤ x && x ≤ rc.rmax &&
         (match rc.step with
          | none => true
          | some st => (x - rc.rmin) % st == 0) then none
      else some ⟨.errUnsupportedParam, nm, x⟩

/-- The BinaryRendering switch inside the ColorModeBinary case. -/
def checkBinaryRendering (req : ScannerRequest) (caps : ScannerCapabilities) :
    Option ErrParam :=
  if req.binaryRendering = BinaryRenderingUnset then none
  else if req.binaryRendering < 0 ∨ req.binaryRendering ≥ binaryRenderingMax then
    some ⟨.errInvalidParam, "BinaryRendering", req.binaryRendering⟩
  else if !((supBinaryRenderings caps).contains req.binaryRendering) then
    some ⟨.errUnsupportedParam, "BinaryRendering", req.binaryRendering⟩
  else none

/-- The Depth switch inside the ColorModeMono and ColorModeColor case. -/
def checkDepth (req : ScannerRequest) (caps : ScannerCapabilities) :
    Option ErrParam :=
  if req.depth = DepthUnset then none
  else if req.depth < 0 ∨ req.depth ≥ depthMax then
    some ⟨.errInvalidParam, "Depth", req.depth⟩
  else if !((supDepths caps).contains req.depth) then
    some ⟨.errUnsupportedParam, "Depth", req.depth⟩
  else none

/-- The switch on req.ColorMode after the ColorMode check: the Binary case
validates BinaryRendering and then Threshold, the Mono and Color cases
validate Depth, and every other value (in particular ColorModeUnset)
matches no case of the Go switch and checks nothing. -/
def checkColorModeBranch (req : ScannerRequest) (caps : ScannerCapabilities) :
    Option ErrParam :=
  if req.colorMode = ColorModeBinary then
    firstErr (checkBinaryRendering req caps)
      (rangeValidate caps.thresholdRange "Threshold" req.threshold)
  else if req.colorMode = ColorModeMono ∨ req.colorMode = ColorModeColor then
    checkDepth req caps
  else none

/-- The CCDChannel switch of Validate. -/
def checkCCDChannel (req : ScannerRequest) (caps : ScannerCapabilities) :
    Option ErrParam :=
  if req.ccdChannel = CCDChannelUnset then none
  else if req.ccdChannel < 0 ∨ req.ccdChannel ≥ ccdChannelMax then
    some ⟨.errInvalidParam, "CCDChannel", req.ccdChannel⟩
  else if !((supCCDChannels caps).contains req.ccdChannel) then
    some ⟨.errUnsupportedParam, "CCDChannel", req.ccdChannel⟩
  else none

/-- The trailing image-processing chain of Validate, in source order. -/
def checkImageParams (req : ScannerRequest) (caps : ScannerCapabilities) :
    Option ErrParam :=
  firstErr (rangeValidate caps.brightnessRange "Brightness" req.brightness)
    (firstErr (rangeValidate caps.contrastRange "Contrast" req.contrast)
      (firstErr (rangeValidate caps.gammaRange "Gamma" req.gamma)
        (firstErr (rangeValidate caps.highlightRange "Highlight" req.highlight)
          (firstErr
            (rangeValidate caps.noiseRemovalRange "NoiseRemoval"
              req.noiseRemoval)
            (firstErr (rangeValidate caps.shadowRange "Shadow" req.shadow)
              (firstErr (rangeValidate caps.sharpenRange "Sharpen" req.sharpen)
                (rangeValidate caps.compressionRange "Compression"
                  req.compression)))))))

/-- Embeds ScannerRequest.Validate: the switches run in source order and
the first failure is returned. -/
def Validate (req : ScannerRequest) (caps : ScannerCapabilities) :
    Option ErrParam :=
  firstErr (checkInput req caps)
    (firstErr (checkADFMode req caps)
      (firstErr (checkColorMode req caps)
        (firstErr (checkColorModeBranch req caps)
          (firstErr (checkCCDChannel req caps) (checkImageParams req caps)))))

/-- A request whose only set field is an out-of-range Depth, with the
color mode left unset. -/
def reqDepthUnchecked : ScannerRequest :=
  ⟨0, 0, 0, 3, 0, 0, none, none, none, none, none, none, none, none, none⟩

/-- Capabilities with just a platen and no ranges. -/
def capsPlatenOnly : ScannerCapabilities :=
  ⟨some ⟨[], []⟩, none, none, none, none, none, none, none, none, none,
   none, none⟩

end Abstract

namespace Abstract

/-- A binary-mode request whose BinaryRendering value is out of the enum
range. -/
def reqBinBadRendering : ScannerRequest :=
  ⟨0, 0, 1, 0, 5, 0, none, none, none, none, none, none, none, none, none⟩

/-- Capabilities whose platen profile supports the binary color mode. -/
def capsBinary : ScannerCapabilities :=
  ⟨some ⟨[], [⟨[1], [], [], []⟩]⟩, none, none, none, none, none, none, none,
   none, none, none, none⟩

end Abstract

/-- Counterexample to claim C6 as stated: with ColorMode unset (hence not
Binary) and an out-of-range Depth, Validate reports no error at all, so
the claim that Depth is validated whenever ColorMode is not Binary is
false on the code: the Go switch on ColorMode has no default case and
checks neither Depth nor BinaryRendering when ColorMode is unset. -/
theorem validate_unset_colormode_skips_depth :
    Abstract.reqDepthUnchecked.colorMode ≠ Abstract.ColorModeBinary
    ∧ Abstract.reqDepthUnchecked.depth ≥ Abstract.depthMax
    ∧ Abstract.Validate Abstract.reqDepthUnchecked Abstract.capsPlatenOnly
      = none := by
  decide

/-- Claim C6 (amended): Validate applies its rules in source order and
returns the first failure; after ColorMode is validated, if ColorMode is
Binary then BinaryRendering and then Threshold (against
caps.ThresholdRange) are validated, if ColorMode is Mono or Color then
Depth is validated, and if ColorMode is unset neither branch checks
anything, so Depth, BinaryRendering and Threshold are ignored. -/
theorem validate_colormode_branch_rules (req : Abstract.ScannerRequest)
    (caps : Abstract.ScannerCapabilities) :
    (req.colorMode = Abstract.ColorModeUnset →
      ∀ d b t,
        Abstract.Validate
          { req with depth := d, binaryRendering := b, threshold := t } caps
        = Abstract.Validate req caps)
    ∧ (req.colorMode = Abstract.ColorModeBinary →
      ∀ d,
        Abstract.Validate { req with depth := d } caps
        = Abstract.Validate req caps)
    ∧ ((req.colorMode = Abstract.ColorModeMono ∨
        req.colorMode = Abstract.ColorModeColor) →
      ∀ b t,
        Abstract.Validate
          { req with binaryRendering := b, threshold := t } caps
        = Abstract.Validate req caps)
    ∧ (req.colorMode = Abstract.ColorModeBinary →
      Abstract.checkInput req caps = none →
      Abstract.checkADFMode req caps = none →
      Abstract.checkColorMode req caps = none →
      ∀ e, Abstract.checkBinaryRendering req caps = some e →
        Abstract.Validate req caps = some e)
    ∧ (req.colorMode = Abstract.ColorModeBinary →
      Abstract.checkInput req caps = none →
      Abstract.checkADFMode req caps = none →
      Abstract.checkColorMode req caps = none →
      Abstract.checkBinaryRendering req caps = none →
      ∀ e,
        Abstract.rangeValidate caps.thresholdRange "Threshold" req.threshold
          = some e →
        Abstract.Validate req caps = some e)
    ∧ ((req.colorMode = Abstract.ColorModeMono ∨
        req.colorMode = Abstract.ColorModeColor) →
      Abstract.checkInput req caps = none →
      Abstract.checkADFMode req caps = none →
      Abstract.checkColorMode req caps = none →
      ∀ e, Abstract.checkDepth req caps = some e →
        Abstract.Validate req caps = some e) := by
  refine ⟨?_, ?_, ?_, ?_, ?_, ?_⟩
  · intro h d b t
    have hb : Abstract.checkColorModeBranch
        { req with depth := d, binaryRendering := b, threshold := t } caps
        = none := by
      simp [Abstract.checkColorModeBranch, h, Abstract.ColorModeUnset,
            Abstract.ColorModeBinary, Abstract.ColorModeMono,
            Abstract.ColorModeColor]
    have hb' : Abstract.checkColorModeBranch req caps = none := by
      simp [Abstract.checkColorModeBranch, h, Abstract.ColorModeUnset,
            Abstract.ColorModeBinary, Abstract.ColorModeMono,
            Abstract.ColorModeColor]
    simp only [Abstract.Validate]
    rw [hb, hb']
    rfl
  · intro h d
    have hb : Abstract.checkColorModeBranch { req with depth := d } caps
        = Abstract.checkColorModeBranch req caps := by
      simp [Abstract.checkColorModeBranch, h]
      try rfl
    simp only [Abstract.Validate]
    rw [hb]
    rfl
  · intro h b t
    have hb : Abstract.checkColorModeBranch
        { req with binaryRendering := b, threshold := t } caps
        = Abstract.checkColorModeBranch req caps := by
      rcases h with h | h <;>
        (simp [Abstract.checkColorModeBranch, Abstract.checkDepth, h,
              Abstract.ColorModeBinary, Abstract.ColorModeMono,
              Abstract.ColorModeColor]
         try rfl)
    simp only [Abstract.Validate]
    rw [hb]
    rfl
  · intro h h1 h2 h3 e he
    have hb : Abstract.checkColorModeBranch req caps = some e := by
      simp [Abstract.checkColorModeBranch, h, he, Abstract.firstErr]
    simp only [Abstract.Validate]
    rw [h1, h2, h3, hb]
    rfl
  · intro h h1 h2 h3 h4 e he
    have hb : Abstract.checkColorModeBranch req caps = some e := by
      simp [Abstract.checkColorModeBranch, h, h4, he, Abstract.firstErr]
    simp only [Abstract.Validate]
    rw [h1, h2, h3, hb]
    rfl
  · intro h h1 h2 h3 e he
    have hb : Abstract.checkColorModeBranch req caps = some e := by
      rcases h with h | h <;>
        simp [Abstract.checkColorModeBranch, h, he,
              Abstract.ColorModeBinary, Abstract.ColorModeMono,
              Abstract.ColorModeColor]
    simp only [Abstract.Validate]
    rw [h1, h2, h3, hb]
    rfl

/-- Witness for the amended C6: a binary-mode request whose
BinaryRendering value five is outside the enum range fails exactly with
the invalid BinaryRendering error. -/
theorem validate_colormode_branch_rules_witness :
    Abstract.Validate Abstract.reqBinBadRendering Abstract.capsBinary
      = some ⟨.errInvalidParam, "BinaryRendering", 5⟩ :=
  (validate_colormode_branch_rules Abstract.reqBinBadRendering
      Abstract.capsBinary).2.2.2.1
    (by decide) (by decide) (by decide) (by decide)
    ⟨.errInvalidParam, "BinaryRendering", 5⟩ (by decide)

/-! ## eSCL server state machine (escl abstract server) -/

namespace Escl

/-- Job states of the eSCL protocol, from escl/jobstate.go; the server
sources refer to them as JobPending, JobProcessing and so on. -/
inductive JobState where
  | pending
  | processing
  | completed
  | canceled
  | aborted
deriving DecidableEq

/-- Job state reasons used by the abstract server. -/
inductive JobStateReason where
  | unknownJobStateReason
  | jobCompletedSuccessfully
  | abortedBySystem
  | jobCanceledByUser
deriving DecidableEq

/-- Scanner states of the eSCL protocol, per spec section 6. -/
inductive ScannerState where
  | scannerIdle
  | scannerProcessing
  | scannerTesting
  | scannerStopped
  | scannerDown
deriving DecidableEq

/-- ADF states referenced by the abstract server. -/
inductive ADFState where
  | scannerAdfProcessing
  | scannerAdfEmpty
deriving DecidableEq

/-- Modelled from the spec: escl.JobInfo carries JobUri, an optional
JobUuid, JobState and JobStateReasons; its own declaration file is not in
the tree, its fields are those used by the abstract server and by
DecodeScannerStatus. -/
structure JobInfo where
  jobURI : String
  jobUUID : Option String
  jobState : JobState
  jobStateReasons : List JobStateReason
deriving DecidableEq

/-- The escl.ScannerStatus structure of escl/scannerstatus.go; the version
is abstracted to a number.  The nil job slice of a fresh server is
modelled as the empty list. -/
structure ScannerStatus where
  version : Nat
  state : ScannerState
  adfState : Option ADFState
  jobs : List JobInfo
deriving DecidableEq

/-- How many jobs the abstract server keeps in its history. -/
def AbstractServerHistorySize : Nat := 10

/-- Modelled from the spec: ScannerStatus.PushJobInfo prepends the new job
(the job list is ordered newest-first) and retains at most n entries. -/
def ScannerStatus.PushJobInfo (st : ScannerStatus) (info : JobInfo)
    (n : Nat) : ScannerStatus :=
  { st with jobs := (info :: st.jobs).take n }

/-- One page of an abstract document stream, or the error its Next call
reports; abstract.Document is an external collaborator of the server. -/
inductive DocItem where
  | fileItem (f : Nat)
  | failItem (e : Nat)
deriving DecidableEq

/-- The remaining stream of an abstract document; an exhausted stream
answers EOF. -/
abbrev Document := List DocItem

/-- Result of Document.Next. -/
inductive NextRes where
  | fileRes (f : Nat)
  | eofRes
  | errRes (e : Nat)
deriving DecidableEq

/-- One Document.Next call on the modelled document stream. -/
def documentNext : Document → NextRes × Document
  | [] => (.eofRes, [])
  | .fileItem f :: rest => (.fileRes f, rest)
  | .failItem e :: rest => (.errRes e, rest)

/-- The mutable state of escl.AbstractServer: options (base path), the
capabilities, the scanner status and the current document.  The logging
context carries no state. -/
structure AbstractServer where
  basePath : String
  caps : Abstract.ScannerCapabilities
  status : ScannerStatus
  document : Option Document
deriving DecidableEq

/-- Modelled from the spec: escl.DefaultVersion is eSCL version 2.0. -/
def defaultVersion : Nat := 20

/-- Embeds NewAbstractServer: default version substitution, idle state,
and the ADF state set to ScannerAdfProcessing whenever the capabilities
carry an ADF; the job history starts out nil.  The base-path
canonicalization through transport.CleanURLPath is treated as the
identity on the already-clean paths used here. -/
def NewAbstractServer (basePath : String) (version : Nat)
    (caps : Abstract.ScannerCapabilities) : AbstractServer :=
  let ver := if version = 0 then defaultVersion else version
  let adf : Option ADFState :=
    if caps.adfSimplex.isSome || caps.adfDuplex.isSome then
      some .scannerAdfProcessing
    else none
  ⟨basePath, caps, ⟨ver, .scannerIdle, adf, []⟩, none⟩

/-- An XML element as produced for eSCL responses: name, text and child
elements; attributes never occur in ScannerStatus replies. -/
structure SElem where
  name : String
  text : String
  children : List SElem

/-- Modelled from the spec: the eSCL wire text of the version. -/
def versionText (v : Nat) : String :=
  toString (v / 10) ++ "." ++ toString (v % 10)

/-- Modelled from the spec: wire names of the scanner states, per the
State enumeration of spec section 6. -/
def scannerStateText : ScannerState → String
  | .scannerIdle => "Idle"
  | .scannerProcessing => "Processing"
  | .scannerTesting => "Testing"
  | .scannerStopped => "Stopped"
  | .scannerDown => "Down"

/-- Modelled from the spec: wire names of the ADF states. -/
def adfStateText : ADFState → String
  | .scannerAdfProcessing => "ScannerAdfProcessing"
  | .scannerAdfEmpty => "ScannerAdfEmpty"

/-- Wire names of the job states, from the String method in
escl/jobstate.go. -/
def jobStateText : JobState → String
  | .canceled => "Canceled"
  | .aborted => "Aborted"
  | .completed => "Completed"
  | .pending => "Pending"
  | .processing => "Processing"

/-- Modelled from the spec: wire names of the job state reasons. -/
def jobStateReasonText : JobStateReason → String
  | .unknownJobStateReason => "Unknown"
  | .jobCompletedSuccessfully => "JobCompletedSuccessfully"
  | .abortedBySystem => "AbortedBySystem"
  | .jobCanceledByUser => "JobCanceledByUser"

/-- Modelled from the spec: JobInfo.toXML emits JobUri, the optional
JobUuid, JobState and the JobStateReasons list. -/
def JobInfo.toXML (j : JobInfo) (nm : String) : SElem :=
  ⟨nm, "",
    [⟨"pwg:JobUri", j.jobURI, []⟩]
    ++ (match j.jobUUID with
        | some u => [⟨"pwg:JobUuid", u, []⟩]
        | none => [])
    ++ [⟨"pwg:JobState", jobStateText j.jobState, []⟩]
    ++ (match j.jobStateReasons with
        | [] => []
        | rs => [⟨"pwg:JobStateReasons", "",
                  rs.map (fun r => ⟨"pwg:JobStateReason",
                                    jobStateReasonText r, []⟩)⟩])⟩

/-- Embeds ScannerStatus.ToXML of escl/scannerstatus.go: Version and
State always, AdfState when set, and the Jobs element only when the job
slice is non-nil. -/
def ScannerStatus.ToXML (status : ScannerStatus) : SElem :=
  let children := [(⟨"pwg:Version", versionText status.version, []⟩ : SElem),
                   ⟨"pwg:State", scannerStateText status.state, []⟩]
  let children := match status.adfState with
    | none => children
    | some a => children ++ [⟨"scan:AdfState", adfStateText a, []⟩]
  let children := match status.jobs with
    | [] => children
    | js => children ++
        [⟨"scan:Jobs", "", js.map (fun j => JobInfo.toXML j "scan:JobInfo")⟩]
  ⟨"scan:ScannerStatus", "", children⟩

/-- HTTP responses the abstract server produces, tagged by their origin:
SendXML, Reject, SendImage, Created and the bare WriteHeader of the
delete handler. -/
inductive Resp where
  | xmlResp (code : Nat) (body : SElem)
  | rejectResp (code : Nat)
  | imageResp (code : Nat) (f : Nat)
  | createdResp (code : Nat) (location : String)
  | okResp (code : Nat)

/-- Embeds getScannerStatus: SendXML answers 200 with the status tree. -/
def getScannerStatus (srv : AbstractServer) : Resp :=
  .xmlResp 200 srv.status.ToXML

/-- Embeds the finish helper of the abstract server: the document is
closed and cleared, the scanner returns to idle, and the first (current)
job takes the passed state, plus the reason unless it is unknown. -/
def finish (srv : AbstractServer) (state : JobState)
    (reason : JobStateReason) : AbstractServer :=
  { srv with
    document := none,
    status := { srv.status with
      state := .scannerIdle,
      jobs := (match srv.status.jobs with
        | [] => []
        | j :: rest =>
          { j with jobState := state,
                   jobStateReasons :=
                     if reason ≠ .unknownJobStateReason then [reason]
                     else j.jobStateReasons } :: rest) } }

/-- Embeds getJobURINextDocument, given the current document stream: EOF
finishes the job as completed and answers 404, any other error finishes
it as canceled with reason aborted-by-system and answers 503, and a page
streams back with 200. -/
def getJobURINextDocument (srv : AbstractServer) (doc : Document) :
    AbstractServer × Resp :=
  match documentNext doc with
  | (.eofRes, _) =>
    (finish srv .completed .jobCompletedSuccessfully, .rejectResp 404)
  | (.errRes _, _) =>
    (finish srv .canceled .abortedBySystem, .rejectResp 503)
  | (.fileRes f, rest) =>
    ({ srv with document := some rest }, .imageResp 200 f)

/-- Embeds deleteJobURI: finish as canceled by user and answer 200. -/
def deleteJobURI (srv : AbstractServer) : AbstractServer × Resp :=
  (finish srv .canceled .jobCanceledByUser, .okResp 200)

/-- Embeds postScanJobs.  The request decoding outcome, the UUID
generation outcome and the scanner Scan outcome are inputs of the
handler; their checks run in source order: malformed body 400, busy 503,
UUID failure 503, Scan failure 409, then the status update and 201. -/
def postScanJobs (srv : AbstractServer) (bodyOk : Bool)
    (uuid : Option String) (scanRes : Except Nat Document) :
    AbstractServer × Resp :=
  if bodyOk = false then (srv, .rejectResp 400)
  else
    match srv.document with
    | some _ => (srv, .rejectResp 503)
    | none =>
      match uuid with
      | none => (srv, .rejectResp 503)
      | some uu =>
        match scanRes with
        | .error _ => (srv, .rejectResp 409)
        | .ok doc =>
          let joburi := srv.basePath ++ "/ScanJobs/" ++ uu
          let info : JobInfo := ⟨joburi, some uu, .processing, []⟩
          ({ srv with document := some doc,
                      status := ScannerStatus.PushJobInfo
                        ({ srv.status with state := .scannerProcessing }) info
                        AbstractServerHistorySize },
           .createdResp 201 joburi)

/-- The requests relevant to the job lifecycle, with the outcomes of the
external collaborators (XML decode, UUID generation, Scanner.Scan)
attached to the POST; the job-URI relative requests dispatch only while a
document is in progress, else ServeHTTP answers 404. -/
inductive SrvReq where
  | postReq (bodyOk : Bool) (uuid : Option String)
      (scanRes : Except Nat Document)
  | nextDocumentReq
  | deleteJobReq
  | otherReq

/-- Embeds the ServeHTTP dispatch for the state-changing endpoints. -/
def serveHTTP (srv : AbstractServer) : SrvReq → AbstractServer × Resp
  | .postReq b u s => postScanJobs srv b u s
  | .nextDocumentReq =>
    match srv.document with
    | none => (srv, .rejectResp 404)
    | some d => getJobURINextDocument srv d
  | .deleteJobReq =>
    match srv.document with
    | none => (srv, .rejectResp 404)
    | some _ => deleteJobURI srv
  | .otherReq => (srv, .rejectResp 404)

/-- Folds a request sequence through the server. -/
def run (srv : AbstractServer) (reqs : List SrvReq) : AbstractServer :=
  reqs.foldl (fun s r => (serveHTTP s r).1) srv

/-- The current-document invariant: no job after the first is processing,
all jobs are settled when no document is in flight, and an in-flight
document implies a non-empty job history. -/
def jobsInv (srv : AbstractServer) : Prop :=
  (∀ j ∈ srv.status.jobs.tail, j.jobState ≠ .processing)
  ∧ (srv.document = none → ∀ j ∈ srv.status.jobs, j.jobState ≠ .processing)
  ∧ (srv.document.isSome → srv.status.jobs ≠ [])

end Escl

namespace Escl

theorem jobsInv_finish (srv : AbstractServer) (st : JobState)
    (reason : JobStateReason) (hst : st ≠ .processing) (h : jobsInv srv) :
    jobsInv (finish srv st reason) := by
  obtain ⟨h1, h2, h3⟩ := h
  cases hj : srv.status.jobs with
  | nil =>
    refine ⟨?_, ?_, ?_⟩ <;> simp [finish, hj]
  | cons j rest =>
    have h1' : ∀ x ∈ rest, x.jobState ≠ JobState.processing := by
      intro x hx
      apply h1 x
      rw [hj]
      simpa using hx
    refine ⟨?_, ?_, ?_⟩
    · intro x hx
      simp [finish, hj] at hx
      exact h1' x hx
    · intro _ x hx
      simp [finish, hj] at hx
      rcases hx with hx | hx
      · rw [hx]
        simpa using hst
      · exact h1' x hx
    · simp [finish]

theorem jobsInv_serveHTTP (srv : AbstractServer) (r : SrvReq)
    (h : jobsInv srv) : jobsInv (serveHTTP srv r).1 := by
  obtain ⟨h1, h2, h3⟩ := h
  cases r with
  | postReq b u s =>
    by_cases hb : b = false
    · simpa [serveHTTP, postScanJobs, hb] using ⟨h1, h2, h3⟩
    · cases hdoc : srv.document with
      | some d =>
        simpa [serveHTTP, postScanJobs, hb, hdoc] using ⟨h1, h2, h3⟩
      | none =>
        cases u with
        | none =>
          simpa [serveHTTP, postScanJobs, hb, hdoc] using ⟨h1, h2, h3⟩
        | some uu =>
          cases s with
          | error e =>
            simpa [serveHTTP, postScanJobs, hb, hdoc] using ⟨h1, h2, h3⟩
          | ok doc =>
            have hold : ∀ x ∈ srv.status.jobs,
                x.jobState ≠ JobState.processing := h2 hdoc
            refine ⟨?_, ?_, ?_⟩
            · intro x hx
              simp [serveHTTP, postScanJobs, hb, hdoc,
                    ScannerStatus.PushJobInfo, AbstractServerHistorySize,
                    List.take_succ_cons] at hx
              exact hold x (List.take_subset 9 srv.status.jobs hx)
            · intro hcontra
              simp [serveHTTP, postScanJobs, hb, hdoc] at hcontra
            · intro _
              simp [serveHTTP, postScanJobs, hb, hdoc,
                    ScannerStatus.PushJobInfo, AbstractServerHistorySize,
                    List.take_succ_cons]
  | nextDocumentReq =>
    cases hdoc : srv.document with
    | none => simpa [serveHTTP, hdoc] using ⟨h1, h2, h3⟩
    | some d =>
      have hne : srv.status.jobs ≠ [] := h3 (by simp [hdoc])
      cases d with
      | nil =>
        simp only [serveHTTP, hdoc, getJobURINextDocument, documentNext]
        exact jobsInv_finish srv .completed .jobCompletedSuccessfully
          (by simp) ⟨h1, h2, h3⟩
      | cons item rest =>
        cases item with
        | fileItem f =>
          simp only [serveHTTP, hdoc, getJobURINextDocument, documentNext]
          refine ⟨?_, ?_, ?_⟩
          · intro x hx
            exact h1 x hx
          · intro hcontra
            simp at hcontra
          · intro _
            exact hne
        | failItem e =>
          simp only [serveHTTP, hdoc, getJobURINextDocument, documentNext]
          exact jobsInv_finish srv .canceled .abortedBySystem
            (by simp) ⟨h1, h2, h3⟩
  | deleteJobReq =>
    cases hdoc : srv.document with
    | none => simpa [serveHTTP, hdoc] using ⟨h1, h2, h3⟩
    | some d =>
      simp only [serveHTTP, hdoc, deleteJobURI]
      exact jobsInv_finish srv .canceled .jobCanceledByUser
        (by simp) ⟨h1, h2, h3⟩
  | otherReq => simpa [serveHTTP] using ⟨h1, h2, h3⟩

theorem jobsInv_run (srv : AbstractServer) (reqs : List SrvReq)
    (h : jobsInv srv) : jobsInv (run srv reqs) := by
  induction reqs generalizing srv with
  | nil => simpa [run] using h
  | cons r rest ih =>
    have hstep := jobsInv_serveHTTP srv r h
    simpa [run] using ih (serveHTTP srv r).1 hstep

theorem jobsInv_new (bp : String) (ver : Nat)
    (caps : Abstract.ScannerCapabilities) :
    jobsInv (NewAbstractServer bp ver caps) := by
  refine ⟨?_, ?_, ?_⟩ <;> simp [NewAbstractServer]

end Escl

namespace Escl

/-- The job info the server publishes while a scan is in progress, used as
concrete test state. -/
def procJobInfo : JobInfo :=
  ⟨"/eSCL/ScanJobs/urn:uuid:j1", some "urn:uuid:j1", .processing, []⟩

/-- A server with one processing job and the given document stream. -/
def busyServer (doc : Document) : AbstractServer :=
  ⟨"/eSCL", Abstract.capsPlatenOnly,
   ⟨20, .scannerProcessing, none, [procJobInfo]⟩, some doc⟩

/-- Capabilities carrying an ADF in simplex mode. -/
def capsADF : Abstract.ScannerCapabilities :=
  ⟨none, some ⟨[], []⟩, none, none, none, none, none, none, none, none,
   none, none⟩

end Escl

/-- Claim C1: evaluating the embedded NextDocument handler at a job in
progress.  When Next reports EOF the job becomes Completed, the scanner
returns to Idle and the reply is 404, as the claim states; but when Next
reports any other error the code marks the job Canceled (with reason
AbortedBySystem) rather than Aborted, while still replying 503 and
returning the scanner to Idle.  The distinct Aborted job state exists in
the enum (escl/jobstate.go), so the claimed transition is expressible and
the code does not perform it. -/
theorem nextdocument_eof_and_error_transitions :
    Escl.serveHTTP (Escl.busyServer []) .nextDocumentReq
      = (⟨"/eSCL", Abstract.capsPlatenOnly,
          ⟨20, .scannerIdle, none,
           [⟨"/eSCL/ScanJobs/urn:uuid:j1", some "urn:uuid:j1", .completed,
             [.jobCompletedSuccessfully]⟩]⟩, none⟩, .rejectResp 404)
    ∧ Escl.serveHTTP (Escl.busyServer [.failItem 7]) .nextDocumentReq
      = (⟨"/eSCL", Abstract.capsPlatenOnly,
          ⟨20, .scannerIdle, none,
           [⟨"/eSCL/ScanJobs/urn:uuid:j1", some "urn:uuid:j1", .canceled,
             [.abortedBySystem]⟩]⟩, none⟩, .rejectResp 503)
    ∧ Escl.JobState.canceled ≠ Escl.JobState.aborted :=
  ⟨rfl, rfl, by decide⟩

/-- Claim C2: in every state reached from a fresh server by any request
sequence, at most one job is processing, a processing job can only sit at
position zero of the newest-first history, and a POST with a well-formed
body while a document is in flight is rejected with 503 leaving the state
unchanged. -/
theorem escl_single_processing_job (bp : String) (ver : Nat)
    (caps : Abstract.ScannerCapabilities) (reqs : List Escl.SrvReq) :
    (Escl.run (Escl.NewAbstractServer bp ver caps) reqs).status.jobs.countP
        (fun j => j.jobState == Escl.JobState.processing) ≤ 1
    ∧ (∀ i j,
        (Escl.run (Escl.NewAbstractServer bp ver caps) reqs).status.jobs[i]?
          = some j →
        j.jobState = Escl.JobState.processing → i = 0)
    ∧ (∀ u sr,
        (Escl.run (Escl.NewAbstractServer bp ver caps) reqs).document.isSome →
        Escl.serveHTTP (Escl.run (Escl.NewAbstractServer bp ver caps) reqs)
            (.postReq true u sr)
          = (Escl.run (Escl.NewAbstractServer bp ver caps) reqs,
             .rejectResp 503)) := by
  obtain ⟨h1, h2, h3⟩ :=
    Escl.jobsInv_run (Escl.NewAbstractServer bp ver caps) reqs
      (Escl.jobsInv_new bp ver caps)
  refine ⟨?_, ?_, ?_⟩
  · cases hs : (Escl.run (Escl.NewAbstractServer bp ver caps)
        reqs).status.jobs with
    | nil => simp
    | cons j rest =>
      have hrest : rest.countP
          (fun j => j.jobState == Escl.JobState.processing) = 0 := by
        rw [List.countP_eq_zero]
        intro a ha
        have := h1 a (by rw [hs]; simpa using ha)
        simpa using this
      rw [List.countP_cons, hrest]
      by_cases hj : j.jobState = Escl.JobState.processing <;> simp [hj]
  · intro i j hij hproc
    cases i with
    | zero => rfl
    | succ n =>
      exfalso
      apply h1 j _ hproc
      cases hs : (Escl.run (Escl.NewAbstractServer bp ver caps)
          reqs).status.jobs with
      | nil => rw [hs] at hij; simp at hij
      | cons a rest =>
        rw [hs] at hij
        simp only [List.getElem?_cons_succ] at hij
        simpa using List.getElem?_mem hij
  · intro u sr hdoc
    obtain ⟨d, hd⟩ := Option.isSome_iff_exists.mp hdoc
    simp [Escl.serveHTTP, Escl.postScanJobs, hd]

/-- Witness for C2: after one successful POST the server holds a
document, and a second well-formed POST is answered 503 and changes
nothing. -/
theorem escl_single_processing_job_witness :
    Escl.serveHTTP
        (Escl.run (Escl.NewAbstractServer "/eSCL" 20 Escl.capsADF)
          [.postReq true (some "urn:uuid:j1") (.ok [])])
        (.postReq true none (.ok []))
      = (Escl.run (Escl.NewAbstractServer "/eSCL" 20 Escl.capsADF)
          [.postReq true (some "urn:uuid:j1") (.ok [])],
         .rejectResp 503) :=
  (escl_single_processing_job "/eSCL" 20 Escl.capsADF
      [.postReq true (some "urn:uuid:j1") (.ok [])]).2.2
    none (.ok []) (by rfl)

/-- Claim C9: a freshly constructed server over ADF-capable capabilities
is idle with AdfState ScannerAdfProcessing and an empty job history, and
its ScannerStatus endpoint answers 200 with exactly that state. -/
theorem escl_fresh_status_adf (bp : String) (ver : Nat)
    (caps : Abstract.ScannerCapabilities)
    (hadf : (caps.adfSimplex.isSome || caps.adfDuplex.isSome) = true) :
    (Escl.NewAbstractServer bp ver caps).status.state
      = Escl.ScannerState.scannerIdle
    ∧ (Escl.NewAbstractServer bp ver caps).status.adfState
      = some Escl.ADFState.scannerAdfProcessing
    ∧ (Escl.NewAbstractServer bp ver caps).status.jobs = []
    ∧ Escl.getScannerStatus (Escl.NewAbstractServer bp ver caps)
      = .xmlResp 200
          ⟨"scan:ScannerStatus", "",
           [⟨"pwg:Version",
             Escl.versionText (if ver = 0 then Escl.defaultVersion else ver),
             []⟩,
            ⟨"pwg:State", "Idle", []⟩,
            ⟨"scan:AdfState", "ScannerAdfProcessing", []⟩]⟩ := by
  refine ⟨?_, ?_, ?_, ?_⟩ <;>
    simp [Escl.NewAbstractServer, hadf, Escl.getScannerStatus,
          Escl.ScannerStatus.ToXML, Escl.scannerStateText,
          Escl.adfStateText]

/-- Witness for C9: the fresh-server status facts at concrete ADF-capable
capabilities. -/
theorem escl_fresh_status_adf_witness :
    (Escl.NewAbstractServer "/eSCL" 20 Escl.capsADF).status.state
      = Escl.ScannerState.scannerIdle
    ∧ (Escl.NewAbstractServer "/eSCL" 20 Escl.capsADF).status.adfState
      = some Escl.ADFState.scannerAdfProcessing
    ∧ (Escl.NewAbstractServer "/eSCL" 20 Escl.capsADF).status.jobs = []
    ∧ Escl.getScannerStatus (Escl.NewAbstractServer "/eSCL" 20 Escl.capsADF)
      = .xmlResp 200
          ⟨"scan:ScannerStatus", "",
           [⟨"pwg:Version",
             Escl.versionText (if 20 = 0 then Escl.defaultVersion else 20),
             []⟩,
            ⟨"pwg:State", "Idle", []⟩,
            ⟨"scan:AdfState", "ScannerAdfProcessing", []⟩]⟩ :=
  escl_fresh_status_adf "/eSCL" 20 Escl.capsADF (by rfl)

/-! ## internal XML document model (internal xml decoder and encoder) -/

namespace IXml

/-- Models Go unicode.IsSpace (as used by bytes.TrimSpace) on the Latin-1
range. -/
def isSpc (c : Char) : Bool :=
  c = ' ' || c = '\t' || c = '\n' || c = '\x0b' || c = '\x0c' || c = '\r' ||
  c = '\x85' || c = '\xa0'

/-- The character-list form of bytes.TrimSpace. -/
def trimChars (l : List Char) : List Char :=
  ((l.dropWhile isSpc).reverse.dropWhile isSpc).reverse

/-- Embeds bytes.TrimSpace on strings. -/
def trimSpace (s : String) : String :=
  String.mk (trimChars s.data)

/-- XML tokens as delivered by the Go xml.Decoder and emitted by the
xml.Encoder: start elements carry the namespace URL, the local name and
the attributes; the processing instruction is the XML declaration the
encoder writes first.  Comments and directives are never produced by the
encoder and are ignored by the decoder just as the declaration is. -/
inductive Tok where
  | startTok (sp : String) (loc : String) (attrs : List (String × String))
  | endTok (nm : String)
  | charData (text : String)
  | procInst
deriving DecidableEq

/-- A decoded element: rewritten name, root-anchored path, trimmed text,
attributes and the indices of the elements recorded in Children.  The Go
Element links children by pointer; indices into the decoded element list
replace the pointers. -/
structure Elem0 where
  name : String
  path : String
  text : String
  attrs : List (String × String)
  children : List Nat
deriving DecidableEq

/-- Namespace map: pairs of full URL and short prefix. -/
def nsByURL (ns : List (String × String)) (url : String) : Option String :=
  (ns.find? (fun p => p.1 == url)).map (·.2)

/-- Reverse lookup used by the encoder. -/
def nsByPref (ns : List (String × String)) (pre : String) : Option String :=
  (ns.find? (fun p => p.2 == pre)).map (·.1)

/-- Name rewriting of the decoder: a namespaced name gets the prefix from
the map (or the dash for unknown namespaces) joined by a colon; an
unprefixed or empty-prefix name stays the local name. -/
def mergeName (ns : List (String × String)) (sp loc : String) : String :=
  if sp ≠ "" then
    let pre := match nsByURL ns sp with
      | some p => p
      | none => "-"
    if pre ≠ "" then pre ++ ":" ++ loc else loc
  else loc

/-- Path extension with the slash separator, as the decoder's path buffer
grows on each start element. -/
def childPath (p nm : String) : String :=
  p ++ "/" ++ nm

/-- Appends a child index to the Children of the element at index anc,
modelling p.Children = append(p.Children, elem). -/
def appendChild (els : List Elem0) (anc idx : Nat) : List Elem0 :=
  match els[anc]? with
  | some e => els.set anc { e with children := e.children ++ [idx] }
  | none => els

/-- Replaces the text of the element at index i. -/
def setText (els : List Elem0) (i : Nat) (t : String) : List Elem0 :=
  match els[i]? with
  | some e => els.set i { e with text := t }
  | none => els

/-- Decoder state: the elements decoded so far, the stack of open element
indices (the chain of Parent pointers) and the current path. -/
structure DecSt where
  els : List Elem0
  stack : List Nat
  path : String
deriving DecidableEq

/-- One token step of Decode: a start element is rewritten, recorded, and
appended to the Children of every open ancestor; an end element pops the
stack and truncates the path to the parent's; character data is trimmed
and assigned to the innermost open element. -/
def decodeStep (ns : List (String × String)) (st : DecSt) (t : Tok) : DecSt :=
  match t with
  | .startTok sp loc _ =>
    let nm := mergeName ns sp loc
    let p := childPath st.path nm
    let idx := st.els.length
    let els := st.els ++ [⟨nm, p, "", [], []⟩]
    let els := st.stack.foldl (fun a anc => appendChild a anc idx) els
    ⟨els, idx :: st.stack, p⟩
  | .endTok _ =>
    match st.stack with
    | [] => st
    | _ :: rest =>
      let p := match rest with
        | [] => ""
        | top :: _ =>
          match st.els[top]? with
          | some e => e.path
          | none => ""
      ⟨st.els, rest, p⟩
  | .charData t =>
    match st.stack with
    | [] => st
    | top :: _ => ⟨setText st.els top (trimSpace t), st.stack, st.path⟩
  | .procInst => st

/-- Embeds xml.Decode over a token stream. -/
def Decode (ns : List (String × String)) (toks : List Tok) : List Elem0 :=
  (toks.foldl (decodeStep ns) ⟨[], [], ""⟩).els

/-- Embeds encodeRecursive with a fuel budget: the element emits its
start tag with its attributes, its trimmed text when non-empty, every
element listed in Children recursively, and its end tag.  The fuel
bounds the recursion depth; the element-list length is enough fuel for
any decoded tree, whose child indices always grow. -/
def encodeRec (els : List Elem0) : Nat → Nat → List Tok
  | 0, _ => []
  | fuel + 1, i =>
    match els[i]? with
    | none => []
    | some e =>
      [Tok.startTok "" e.name e.attrs]
      ++ (let t := trimSpace e.text
          if t ≠ "" then [Tok.charData t] else [])
      ++ (e.children.map (encodeRec els fuel)).flatten
      ++ [Tok.endTok e.name]

/-- Modelled from the spec: nsPrefix splits a namespace-prefixed name at
the colon; its declaration file is not in the tree. -/
def nsPref (s : String) : Option String :=
  if s.data.contains ':' then some (String.mk (s.data.takeWhile (· ≠ ':')))
  else none

/-- One name processed by namespaceUsed: a not-yet-seen prefix is marked
in use, and when the namespace map knows it the pair joins the output. -/
def nsUsedStep (ns : List (String × String))
    (acc : List (String × String) × List String) (nm : String) :
    List (String × String) × List String :=
  match nsPref nm with
  | none => acc
  | some pre =>
    if acc.2.contains pre then acc
    else
      match nsByPref ns pre with
      | some url => (acc.1 ++ [(url, pre)], acc.2 ++ [pre])
      | none => (acc.1, acc.2 ++ [pre])

/-- Embeds namespaceUsed: walk every element of the tree in document
order, the element name first and then its attribute names, collecting
the namespace pairs actually referenced. -/
def namespaceUsed (els : List Elem0) (ns : List (String × String)) :
    List (String × String) :=
  (els.foldl
    (fun acc e => (e.attrs.map (·.1)).foldl (nsUsedStep ns)
      (nsUsedStep ns acc e.name))
    ([], [])).1

/-- Embeds the encode entry point on the root element: the xmlns
attributes for the used namespaces are prepended to the root's
attributes, the XML declaration is written, and the tree is encoded
recursively. -/
def encodeTop (els : List Elem0) (ns : List (String × String)) : List Tok :=
  match els with
  | [] => [Tok.procInst]
  | r :: rest =>
    let nsattrs := (namespaceUsed (r :: rest) ns).map
      (fun p => ("xmlns:" ++ p.2, p.1))
    let els2 := ({ r with attrs := nsattrs ++ r.attrs }) :: rest
    Tok.procInst :: encodeRec els2 els2.length 0

/-- The token stream of a three-level document: a root holding one child
holding one grandchild. -/
def doc3 : List Tok :=
  [.startTok "" "a" [], .startTok "" "b" [], .startTok "" "c" [],
   .endTok "c", .endTok "b", .endTok "a"]

end IXml

/-- Counterexample to claim C3 as stated: the decoder appends every new
element to the Children of every open ancestor (the loop over
elem.Parent in Decode), so Children holds the whole flattened subtree,
while the encoder walks Children recursively; encoding a tree of depth
three therefore duplicates the grandchild, and re-decoding yields four
elements where the original had three.  No whitespace normalization or
prefix canonicalization is involved. -/
theorem xml_roundtrip_fails_depth3 :
    (IXml.Decode [] (IXml.encodeTop (IXml.Decode [] IXml.doc3) [])).length = 4
    ∧ (IXml.Decode [] IXml.doc3).length = 3
    ∧ IXml.Decode [] (IXml.encodeTop (IXml.Decode [] IXml.doc3) [])
      ≠ IXml.Decode [] IXml.doc3 := by
  refine ⟨by decide, by decide, by decide⟩

namespace IXml

theorem dropWhile_dropWhile (p : Char → Bool) (l : List Char) :
    (l.dropWhile p).dropWhile p = l.dropWhile p := by
  induction l with
  | nil => rfl
  | cons a t ih =>
    by_cases h : p a
    · simp [List.dropWhile_cons, h, ih]
    · simp [List.dropWhile_cons, h]

theorem length_dropWhile_le (p : Char → Bool) (l : List Char) :
    (l.dropWhile p).length ≤ l.length := by
  induction l with
  | nil => simp
  | cons a t ih =>
    by_cases h : p a
    · rw [List.dropWhile_cons]
      simp only [h, if_true]
      exact Nat.le_trans ih (by simp)
    · simp [List.dropWhile_cons, h]

theorem dropWhile_prefix_self (p : Char → Bool) (m v : List Char)
    (h : (m ++ v).dropWhile p = m ++ v) : m.dropWhile p = m := by
  cases m with
  | nil => rfl
  | cons a t =>
    by_cases ha : p a
    · exfalso
      rw [List.cons_append, List.dropWhile_cons] at h
      simp only [ha, if_true] at h
      have hle := length_dropWhile_le p (t ++ v)
      rw [h] at hle
      simp at hle
    · simp [List.dropWhile_cons, ha]

theorem trimChars_idem (l : List Char) :
    trimChars (trimChars l) = trimChars l := by
  unfold trimChars
  set u := l.dropWhile isSpc with hu
  set m := (u.reverse.dropWhile isSpc).reverse with hm
  have hdec : u.reverse.takeWhile isSpc ++ u.reverse.dropWhile isSpc
      = u.reverse := List.takeWhile_append_dropWhile isSpc u.reverse
  have hsplit : u = m ++ (u.reverse.takeWhile isSpc).reverse := by
    have h := congrArg List.reverse hdec
    rw [List.reverse_append, List.reverse_reverse] at h
    rw [hm]
    exact h.symm
  have hudrop : u.dropWhile isSpc = u := by
    rw [hu]
    exact dropWhile_dropWhile isSpc l
  have hmdrop : m.dropWhile isSpc = m := by
    apply dropWhile_prefix_self isSpc m ((u.reverse.takeWhile isSpc).reverse)
    rw [← hsplit]
    exact hudrop
  have hmrev : m.reverse.dropWhile isSpc = m.reverse := by
    rw [hm, List.reverse_reverse]
    exact dropWhile_dropWhile isSpc u.reverse
  rw [hmdrop, hmrev, List.reverse_reverse]

theorem trimSpace_idem (s : String) :
    trimSpace (trimSpace s) = trimSpace s := by
  unfold trimSpace
  rw [show (String.mk (trimChars s.data)).data = trimChars s.data from rfl,
      trimChars_idem]

theorem nsUsedStep_nil_fst (acc : List (String × String) × List String)
    (nm : String) : (nsUsedStep [] acc nm).1 = acc.1 := by
  unfold nsUsedStep
  cases nsPref nm with
  | none => rfl
  | some pre =>
    by_cases h : pre ∈ acc.2 <;> simp [h, nsByPref]

theorem foldl_nsUsedStep_nil_fst (names : List String) :
    ∀ acc, (names.foldl (nsUsedStep []) acc).1 = acc.1 := by
  induction names with
  | nil => intro acc; rfl
  | cons n rest ih =>
    intro acc
    rw [List.foldl_cons, ih]
    exact nsUsedStep_nil_fst acc n

theorem namespaceUsed_nil (els : List Elem0) : namespaceUsed els [] = [] := by
  unfold namespaceUsed
  suffices h : ∀ acc : List (String × String) × List String,
      (List.foldl
        (fun (acc : List (String × String) × List String) (e : Elem0) =>
          (e.attrs.map (·.1)).foldl (nsUsedStep []) (nsUsedStep [] acc e.name))
        acc els).1 = acc.1 by
    exact h ([], [])
  induction els with
  | nil => intro acc; rfl
  | cons e rest ih =>
    intro acc
    rw [List.foldl_cons, ih, foldl_nsUsedStep_nil_fst]
    exact nsUsedStep_nil_fst acc e.name

theorem set_concat_length {α : Type} (l : List α) (a b : α) :
    (l ++ [a]).set l.length b = l ++ [b] := by
  induction l with
  | nil => rfl
  | cons x xs ih => simp [List.set, ih]

theorem range'_concat_one (s k : Nat) :
    List.range' s (k + 1) = List.range' s k ++ [s + k] := by
  induction k generalizing s with
  | zero => simp [List.range']
  | succ n ih =>
    rw [List.range'_succ, ih (s + 1), List.range'_succ]
    have h : s + 1 + n = s + (n + 1) := by omega
    rw [h, List.cons_append]

end IXml

namespace IXml

/-- Tokens of one leaf child: start tag, optional text, end tag. -/
def kidToks (p : String × String) : List Tok :=
  [.startTok "" p.1 []] ++ (if p.2 = "" then [] else [.charData p.2])
  ++ [.endTok p.1]

/-- Tokens of a depth-two document: a root with optional leading text
whose children are leaves. -/
def mkDoc (rn rt : String) (kids : List (String × String)) : List Tok :=
  [.startTok "" rn []] ++ (if rt = "" then [] else [.charData rt])
  ++ kids.flatMap kidToks ++ [.endTok rn]

/-- The decoded form of one leaf child. -/
def kidElem (rn : String) (p : String × String) : Elem0 :=
  ⟨p.1, childPath (childPath "" rn) p.1, trimSpace p.2, [], []⟩

/-- The decoded children of a depth-two document. -/
def leavesOf (rn : String) (kids : List (String × String)) : List Elem0 :=
  kids.map (kidElem rn)

/-- Decoder state after the root with text tx and the given children have
been consumed, with the root still open. -/
def midState (rn tx : String) (done : List (String × String)) : DecSt :=
  ⟨⟨rn, childPath "" rn, tx, [], List.range' 1 done.length⟩
     :: leavesOf rn done,
   [0], childPath "" rn⟩

theorem length_leavesOf (rn : String) (kids : List (String × String)) :
    (leavesOf rn kids).length = kids.length := by
  simp [leavesOf]

theorem getElem?_leaves_concat (rn : String) (done : List (String × String))
    (x : Elem0) : (leavesOf rn done ++ [x])[done.length]? = some x := by
  have h := List.getElem?_concat_length (leavesOf rn done) x
  rwa [length_leavesOf] at h

theorem set_leaves_concat (rn : String) (done : List (String × String))
    (x y : Elem0) :
    (leavesOf rn done ++ [x]).set done.length y = leavesOf rn done ++ [y] := by
  have h := set_concat_length (leavesOf rn done) x y
  rwa [length_leavesOf] at h

@[simp] theorem set_zero_cons {α : Type} (a b : α) (l : List α) :
    (a :: l).set 0 b = b :: l := rfl

@[simp] theorem set_succ_cons {α : Type} (a b : α) (l : List α) (n : Nat) :
    (a :: l).set (n + 1) b = a :: l.set n b := rfl

theorem foldl_kid (rn tx : String) (done : List (String × String))
    (p : String × String) :
    List.foldl (decodeStep []) (midState rn tx done) (kidToks p)
    = midState rn tx (done ++ [p]) := by
  have hlen : (done ++ [p]).length = done.length + 1 := by simp
  have hrange : List.range' 1 ((done ++ [p]).length)
      = List.range' 1 done.length ++ [done.length + 1] := by
    rw [hlen, range'_concat_one]
    have h1 : 1 + done.length = done.length + 1 := by omega
    rw [h1]
  have hleaves : leavesOf rn (done ++ [p])
      = leavesOf rn done ++ [kidElem rn p] := by
    simp [leavesOf]
  have s1 : decodeStep [] (midState rn tx done) (.startTok "" p.1 [])
      = ⟨⟨rn, childPath "" rn, tx, [],
           List.range' 1 done.length ++ [done.length + 1]⟩
           :: (leavesOf rn done
               ++ [⟨p.1, childPath (childPath "" rn) p.1, "", [], []⟩]),
         [done.length + 1, 0], childPath (childPath "" rn) p.1⟩ := by
    simp [decodeStep, midState, mergeName, appendChild, length_leavesOf]
  have s3 : ∀ txt : String,
      decodeStep []
        ⟨⟨rn, childPath "" rn, tx, [],
           List.range' 1 done.length ++ [done.length + 1]⟩
           :: (leavesOf rn done
               ++ [⟨p.1, childPath (childPath "" rn) p.1, txt, [], []⟩]),
         [done.length + 1, 0], childPath (childPath "" rn) p.1⟩
        (.endTok p.1)
      = ⟨⟨rn, childPath "" rn, tx, [],
           List.range' 1 done.length ++ [done.length + 1]⟩
           :: (leavesOf rn done
               ++ [⟨p.1, childPath (childPath "" rn) p.1, txt, [], []⟩]),
         [0], childPath "" rn⟩ := by
    intro txt
    simp [decodeStep]
  by_cases hp : p.2 = ""
  · have hkid : kidElem rn p
        = ⟨p.1, childPath (childPath "" rn) p.1, "", [], []⟩ := by
      simp [kidElem, hp, trimSpace, trimChars]
    simp only [kidToks, hp, if_true, List.cons_append, List.nil_append,
               List.foldl_cons, List.foldl_nil, List.append_nil]
    rw [s1, s3]
    simp only [midState, hleaves, hrange, hkid]
  · have s2 : decodeStep []
        ⟨⟨rn, childPath "" rn, tx, [],
           List.range' 1 done.length ++ [done.length + 1]⟩
           :: (leavesOf rn done
               ++ [⟨p.1, childPath (childPath "" rn) p.1, "", [], []⟩]),
         [done.length + 1, 0], childPath (childPath "" rn) p.1⟩
        (.charData p.2)
        = ⟨⟨rn, childPath "" rn, tx, [],
             List.range' 1 done.length ++ [done.length + 1]⟩
             :: (leavesOf rn done
                 ++ [⟨p.1, childPath (childPath "" rn) p.1,
                      trimSpace p.2, [], []⟩]),
           [done.length + 1, 0], childPath (childPath "" rn) p.1⟩ := by
      simp [decodeStep, setText, getElem?_leaves_concat, set_leaves_concat]
    have hkid : kidElem rn p
        = ⟨p.1, childPath (childPath "" rn) p.1, trimSpace p.2, [], []⟩ := by
      simp [kidElem]
    simp only [kidToks, hp, if_false, ite_false, List.cons_append,
               List.nil_append, List.foldl_cons, List.foldl_nil]
    rw [s1, s2, s3]
    simp only [midState, hleaves, hrange, hkid]

end IXml

namespace IXml

theorem foldl_kids (rn tx : String) (kids : List (String × String)) :
    ∀ done, List.foldl (decodeStep []) (midState rn tx done)
        (kids.flatMap kidToks)
      = midState rn tx (done ++ kids) := by
  induction kids with
  | nil => intro done; simp
  | cons p ps ih =>
    intro done
    rw [List.flatMap_cons, List.foldl_append, foldl_kid, ih (done ++ [p])]
    simp

theorem decode_mkDoc (rn rt : String) (kids : List (String × String)) :
    Decode [] (mkDoc rn rt kids)
    = ⟨rn, childPath "" rn, trimSpace rt, [], List.range' 1 kids.length⟩
      :: leavesOf rn kids := by
  unfold Decode mkDoc
  rw [List.foldl_append, List.foldl_append, List.foldl_append]
  have h0 : List.foldl (decodeStep []) ⟨[], [], ""⟩ [Tok.startTok "" rn []]
      = ⟨[⟨rn, childPath "" rn, "", [], []⟩], [0], childPath "" rn⟩ := by
    simp [decodeStep, mergeName, appendChild]
  rw [h0]
  have h1 : List.foldl (decodeStep [])
      (⟨[⟨rn, childPath "" rn, "", [], []⟩], [0], childPath "" rn⟩ : DecSt)
      (if rt = "" then [] else [Tok.charData rt])
      = midState rn (trimSpace rt) [] := by
    by_cases hrt : rt = ""
    · subst hrt
      simp [midState, leavesOf, List.range', trimSpace, trimChars]
    · simp [hrt, decodeStep, setText, midState, leavesOf, List.range']
  rw [h1, foldl_kids rn (trimSpace rt) kids []]
  have h2 : List.foldl (decodeStep []) (midState rn (trimSpace rt) kids)
      [Tok.endTok rn]
      = ⟨(midState rn (trimSpace rt) kids).els, [], ""⟩ := by
    simp [midState, decodeStep]
  rw [List.nil_append, h2]
  simp [midState]

end IXml

namespace IXml

theorem trimSpace_empty : trimSpace "" = "" := rfl

theorem encodeRec_kid (els : List Elem0) (fuel i : Nat) (rn : String)
    (p : String × String) (h : els[i]? = some (kidElem rn p)) :
    encodeRec els (fuel + 1) i = kidToks (p.1, trimSpace p.2) := by
  rw [encodeRec, h]
  by_cases ht : trimSpace p.2 = "" <;>
    simp [kidElem, kidToks, trimSpace_idem, trimSpace_empty, ht]

theorem encodeChildren (rn : String) (els : List Elem0) (fuel : Nat) :
    ∀ (kids : List (String × String)) (j : Nat),
    (∀ k q, kids[k]? = some q → els[j + k]? = some (kidElem rn q)) →
    ((List.range' j kids.length).map (encodeRec els (fuel + 1))).flatten
    = (kids.map (fun q => (q.1, trimSpace q.2))).flatMap kidToks := by
  intro kids
  induction kids with
  | nil => intro j h; simp
  | cons q qs ih =>
    intro j h
    rw [List.length_cons, List.range'_succ, List.map_cons, List.flatten_cons,
        List.map_cons, List.flatMap_cons]
    have h0 : els[j]? = some (kidElem rn q) := by
      have := h 0 q (by simp)
      simpa using this
    rw [encodeRec_kid els fuel j rn q h0]
    rw [ih (j + 1) ?_]
    intro k q' hk
    have hq := h (k + 1) q' (by simpa using hk)
    have harith : j + (k + 1) = j + 1 + k := by omega
    rwa [harith] at hq

theorem encodeTop_closed (rn rt : String) (kids : List (String × String)) :
    encodeTop
      (⟨rn, childPath "" rn, trimSpace rt, [], List.range' 1 kids.length⟩
        :: leavesOf rn kids) []
    = Tok.procInst
      :: mkDoc rn (trimSpace rt)
           (kids.map (fun q => (q.1, trimSpace q.2))) := by
  have hget : ∀ k q, kids[k]? = some q →
      ((⟨rn, childPath "" rn, trimSpace rt, [],
          List.range' 1 kids.length⟩ : Elem0)
        :: leavesOf rn kids)[1 + k]? = some (kidElem rn q) := by
    intro k q hk
    have h1 : 1 + k = k + 1 := by omega
    rw [h1, List.getElem?_cons_succ]
    simp [leavesOf, List.getElem?_map, hk]
  cases kids with
  | nil =>
    rw [encodeTop, namespaceUsed_nil]
    simp only [List.map_nil, List.nil_append, List.length_cons,
               length_leavesOf, List.length_nil]
    rw [show (0 + 1 : Nat) = 0 + 1 from rfl, encodeRec]
    simp only [List.getElem?_cons_zero]
    by_cases hrt : trimSpace rt = "" <;>
      simp [mkDoc, trimSpace_idem, trimSpace_empty, hrt, leavesOf,
            List.range']
  | cons q qs =>
    rw [encodeTop, namespaceUsed_nil]
    simp only [List.map_nil, List.nil_append, List.length_cons,
               length_leavesOf]
    rw [encodeRec]
    simp only [List.getElem?_cons_zero]
    have hch := encodeChildren rn
      (⟨rn, childPath "" rn, trimSpace rt, [],
         List.range' 1 (qs.length + 1)⟩ :: leavesOf rn (q :: qs))
      qs.length (q :: qs) 1 (by simpa using hget)
    simp only [List.length_cons] at hch
    rw [hch]
    rw [show mkDoc rn (trimSpace rt)
          ((q :: qs).map (fun r => (r.1, trimSpace r.2)))
        = [Tok.startTok "" rn []]
          ++ (if trimSpace rt = "" then []
              else [Tok.charData (trimSpace rt)])
          ++ ((q :: qs).map (fun r => (r.1, trimSpace r.2))).flatMap kidToks
          ++ [Tok.endTok rn] from rfl]
    by_cases hrt : trimSpace rt = "" <;>
      simp [trimSpace_idem, trimSpace_empty, hrt]

end IXml

namespace IXml

theorem decode_procInst_cons (ns : List (String × String)) (toks : List Tok) :
    Decode ns (Tok.procInst :: toks) = Decode ns toks := by
  simp [Decode, List.foldl_cons,
        show decodeStep ns ⟨[], [], ""⟩ .procInst = ⟨[], [], ""⟩ from rfl]

end IXml

/-- Claim C3 (amended): round-tripping holds exactly up to nesting depth
two.  For every document made of a root element with optional leading
text whose children are all leaves, decoding, encoding and decoding again
reproduces the decoded tree (text is whitespace-trimmed once by the first
decode, and trimming is idempotent); for any deeper document the flat
Children representation makes the encoder duplicate the grandchildren,
as the separate counterexample shows. -/
theorem xml_roundtrip_depth_two (rn rt : String)
    (kids : List (String × String)) :
    IXml.Decode [] (IXml.encodeTop (IXml.Decode [] (IXml.mkDoc rn rt kids)) [])
    = IXml.Decode [] (IXml.mkDoc rn rt kids) := by
  rw [IXml.decode_mkDoc, IXml.encodeTop_closed, IXml.decode_procInst_cons,
      IXml.decode_mkDoc]
  have hroot :
      (⟨rn, IXml.childPath "" rn, IXml.trimSpace (IXml.trimSpace rt), [],
        List.range' 1 (kids.map (fun q => (q.1, IXml.trimSpace q.2))).length⟩
        : IXml.Elem0)
      = ⟨rn, IXml.childPath "" rn, IXml.trimSpace rt, [],
         List.range' 1 kids.length⟩ := by
    simp [IXml.trimSpace_idem]
  rw [hroot]
  have hleaves :
      IXml.leavesOf rn (kids.map (fun q => (q.1, IXml.trimSpace q.2)))
      = IXml.leavesOf rn kids := by
    simp only [IXml.leavesOf, List.map_map]
    have hfun : (IXml.kidElem rn ∘ fun q => (q.1, IXml.trimSpace q.2))
        = fun q : String × String => IXml.kidElem rn q := by
      funext q
      simp [IXml.kidElem, IXml.trimSpace_idem]
    rw [hfun]
  rw [hleaves]
